import Mathlib

/-
Verification of the command-shell implementation in `src/app/main.py`
(class `Shell`).  The definitions below are a shallow embedding of the
Python source: pure helpers become Lean functions, the operating-system
surface (filesystem tests, `os.chdir`, process spawning) is abstracted
behind explicit oracles, and observable effects (prints, file opens,
spawned and waited processes) are recorded as explicit event lists.
Python library functions called by the source (`shlex.split`,
`os.path.join`, `os.path.expanduser`, `str.split`, `str.strip`) are
embedded with their documented POSIX behaviour.
-/

set_option autoImplicit false

namespace BuildOwnShell

/-! ## Redirection parser (`Shell.parse_redirection`, main.py lines 99-137) -/

/-- Result state of `Shell.parse_redirection`: the filtered argument
vector plus the last-assigned stdout/stderr redirect targets and modes
(`"w"` for overwrite, `"a"` for append), exactly the five values the
Python function returns. -/
structure RState where
  new_args : List String
  stdout_file : Option String
  stdout_mode : Option String
  stderr_file : Option String
  stderr_mode : Option String
deriving DecidableEq, Repr

/-- Recognised redirection operator tokens. -/
def isRedirOp (s : String) : Bool :=
  s == ">" || s == "1>" || s == ">>" || s == "1>>" || s == "2>" || s == "2>>"

/-- The `while` loop of `Shell.parse_redirection`, scanning the token
list left to right.  An operator followed by a token consumes both and
overwrites the corresponding redirect fields; an operator that is the
final token falls through the `if` bodies and is skipped without being
appended to `new_args` (mirroring the Python control flow where the
`continue` is not reached and the trailing `i += 1` ends the loop). -/
def prGo : List String → RState → RState
  | [], st => st
  | a :: rest, st =>
    if a = ">" ∨ a = "1>" then
      match rest with
      | f :: rest2 =>
          prGo rest2 { st with stdout_file := some f, stdout_mode := some "w" }
      | [] => st
    else if a = ">>" ∨ a = "1>>" then
      match rest with
      | f :: rest2 =>
          prGo rest2 { st with stdout_file := some f, stdout_mode := some "a" }
      | [] => st
    else if a = "2>" then
      match rest with
      | f :: rest2 =>
          prGo rest2 { st with stderr_file := some f, stderr_mode := some "w" }
      | [] => st
    else if a = "2>>" then
      match rest with
      | f :: rest2 =>
          prGo rest2 { st with stderr_file := some f, stderr_mode := some "a" }
      | [] => st
    else prGo rest { st with new_args := st.new_args ++ [a] }

/-- `Shell.parse_redirection(args)`. -/
def parse_redirection (args : List String) : RState :=
  prGo args ⟨[], none, none, none, none⟩

/-- Effect of one operator/filename pair on the parser state: the branch
table of the scan, used to state which stream a given operator rebinds. -/
def applyRedir (op f : String) (st : RState) : RState :=
  if op = ">" ∨ op = "1>" then { st with stdout_file := some f, stdout_mode := some "w" }
  else if op = ">>" ∨ op = "1>>" then { st with stdout_file := some f, stdout_mode := some "a" }
  else if op = "2>" then { st with stderr_file := some f, stderr_mode := some "w" }
  else if op = "2>>" then { st with stderr_file := some f, stderr_mode := some "a" }
  else st

/-- Appending plain (non-operator) tokens to the accumulated argv. -/
def appendArgs (st : RState) (ys : List String) : RState :=
  { st with new_args := st.new_args ++ ys }

/-- A token list that does not end in a redirection operator; such a
list is scanned by `prGo` without a pending operator left at its end,
so scanning it composes with scanning a continuation. -/
def EndsClean (xs : List String) : Prop :=
  ∀ a, xs.getLast? = some a → isRedirOp a = false

/-! ## Tokenizer (`Shell.parse_command`, main.py lines 96-97)

`Shell.parse_command` is `shlex.split(command_str)`, i.e. the CPython
`shlex` lexer with `posix=True`, `whitespace_split=True` and comment
characters disabled.  The state machine below embeds `shlex.read_token`
for that configuration: whitespace separates tokens, single and double
quotes group, backslash escapes (inside double quotes a backslash only
escapes `"` and `\` and is otherwise kept), an unterminated quote
raises `ValueError("No closing quotation")` and a trailing escape
raises `ValueError("No escaped character")`. -/

/-- Characters in `shlex.whitespace`. -/
def isShWs (c : Char) : Bool :=
  c = ' ' || c = '\t' || c = '\r' || c = '\n'

/-- Lexer state: between tokens, inside a word, inside a quote, or
right after an escape character (recording the state to return to:
`none` for the word state `'a'`, `some q` for the quote state `q`). -/
inductive LexState where
  | ws
  | word
  | quo (q : Char)
  | esc (fromQuote : Option Char)
deriving DecidableEq, Repr

/-- One pass of `shlex` over the remaining characters, carrying the
current token, the posix `quoted` flag and the tokens emitted so far. -/
def shlexGo : List Char → LexState → String → Bool → List String →
    Except String (List String)
  | [], .ws, tok, quoted, acc =>
      .ok (acc ++ if tok ≠ "" ∨ quoted then [tok] else [])
  | [], .word, tok, quoted, acc =>
      .ok (acc ++ if tok ≠ "" ∨ quoted then [tok] else [])
  | [], .quo _, _, _, _ => .error "No closing quotation"
  | [], .esc _, _, _, _ => .error "No escaped character"
  | c :: cs, .ws, tok, quoted, acc =>
      if isShWs c then shlexGo cs .ws tok quoted acc
      else if c = '\'' ∨ c = '"' then shlexGo cs (.quo c) tok quoted acc
      else if c = '\\' then shlexGo cs (.esc none) tok quoted acc
      else shlexGo cs .word (tok.push c) quoted acc
  | c :: cs, .word, tok, quoted, acc =>
      if isShWs c then
        shlexGo cs .ws "" false (acc ++ if tok ≠ "" ∨ quoted then [tok] else [])
      else if c = '\'' ∨ c = '"' then shlexGo cs (.quo c) tok quoted acc
      else if c = '\\' then shlexGo cs (.esc none) tok quoted acc
      else shlexGo cs .word (tok.push c) quoted acc
  | c :: cs, .quo q, tok, _, acc =>
      if c = q then shlexGo cs .word tok true acc
      else if c = '\\' ∧ q = '"' then shlexGo cs (.esc (some q)) tok true acc
      else shlexGo cs (.quo q) (tok.push c) true acc
  | c :: cs, .esc fq, tok, quoted, acc =>
      match fq with
      | none => shlexGo cs .word (tok.push c) quoted acc
      | some q =>
          let tok2 := if c ≠ '\\' ∧ c ≠ q then (tok.push '\\').push c else tok.push c
          shlexGo cs (.quo q) tok2 quoted acc

/-- `shlex.split(s)` (posix mode): the tokens of `s`, or the message of
the `ValueError` the lexer raises. -/
def shlex_split (s : String) : Except String (List String) :=
  shlexGo s.toList .ws "" false []

/-! ## Executable resolver (`Shell.find_executable`, main.py lines 143-171)

Embedded: the POSIX branch (`os.name != "nt"`).  The filesystem is
abstracted as two oracles, `os.path.isfile` and
`os.access(-, os.X_OK)`. -/

/-- Abstract filesystem view: `isFile p` is `os.path.isfile(p)` and
`isExec p` is `os.access(p, os.X_OK)`. -/
structure FS where
  isFile : String → Bool
  isExec : String → Bool

/-- Splitting a character list on a separator character, with Python
`str.split(sep)` semantics: the result always has one more part than
there are separators (so an empty input gives `[[]]`, and adjacent
separators give empty parts). -/
def splitChars (sep : Char) : List Char → List (List Char)
  | [] => [[]]
  | c :: cs =>
      if c = sep then [] :: splitChars sep cs
      else match splitChars sep cs with
           | h :: t2 => (c :: h) :: t2
           | [] => [[c]]

/-- `os.path.join(d, name)` for POSIX paths with two components. -/
def os_path_join (d name : String) : String :=
  if name.data.head? = some '/' then name
  else if d = "" then name
  else if d.data.getLast? = some '/' then d ++ name
  else d ++ "/" ++ name

/-- The `for directory in paths` loop of `Shell.find_executable`
(POSIX branch): first directory whose join with the name is an
executable regular file wins. -/
def find_in_dirs (fs : FS) (name : String) : List String → Option String
  | [] => none
  | d :: rest =>
      let full := os_path_join d name
      if fs.isFile full = true ∧ fs.isExec full = true then some full
      else find_in_dirs fs name rest

/-- The shell's environment as seen by the resolver: the filesystem
oracles and the raw `PATH` string (`os.environ.get("PATH", "")`). -/
structure ShellEnv where
  fs : FS
  pathVar : String

/-- `PATH.split(os.pathsep)` on POSIX: split the raw `PATH` string on
`:` (an empty `PATH` yields the single entry `""`). -/
def split_path (s : String) : List String :=
  (splitChars ':' s.data).map String.mk

/-- `Shell.find_executable(command_name)`: splits `PATH` on `:`
(`os.pathsep`) and scans the directories in order; returns `None`
("not found") when no directory matches. -/
def find_executable (env : ShellEnv) (name : String) : Option String :=
  find_in_dirs env.fs name (split_path env.pathVar)

/-- A directory matches a name when the joined path is an executable
regular file. -/
def dirMatch (fs : FS) (name d : String) : Prop :=
  fs.isFile (os_path_join d name) = true ∧ fs.isExec (os_path_join d name) = true

instance (fs : FS) (name d : String) : Decidable (dirMatch fs name d) := by
  unfold dirMatch; infer_instance

/-- Formalisation of claim C4's stated resolution order, written from
the spec's words for comparison with `find_executable` (the code's
resolver): (a) a name containing a path separator is tested literally;
(b) otherwise the current-working-directory-relative path (the bare
name, resolved by the OS against the cwd) is tested; (c) otherwise the
search-path directories are scanned in order. -/
def find_executable_claimed (fs : FS) (pathVar : String) (name : String) : Option String :=
  if name.data.contains '/' then
    if fs.isFile name = true ∧ fs.isExec name = true then some name else none
  else if fs.isFile name = true ∧ fs.isExec name = true then some name
  else find_in_dirs fs name (split_path pathVar)

/-! ## Process orchestrator (`Shell.run_pipeline`, main.py lines 409-517)

The orchestrator's observable behaviour is recorded as an ordered
event list: shell-level `print` calls (which go to the shell's own
`sys.stdout`), redirection-target file opens, builtin invocations, and
external processes spawned (`subprocess.Popen`) and waited
(`proc.wait()`).  Builtin bodies are modelled as opaque
`builtinRun` events; their own state changes and exceptions are
modelled separately (`execute_exit`, `execute_cd` below).
`subprocess.Popen` itself is modelled as always succeeding (its
`except` branch handles only OS-level spawn failures, which the
abstract environment does not produce). -/

/-- Observable events of one `run_pipeline` call.  `printOut s` is a
Python `print(s)` by the shell itself: `s` plus a newline written to
`sys.stdout`.  `printErr s` would be a write of `s` plus a newline to
`sys.stderr`; `run_pipeline` never produces one. -/
inductive PEvent where
  | printOut (s : String)
  | printErr (s : String)
  | openFile (name : String) (mode : String)
  | builtinRun (argv : List String)
  | spawned (argv : List String) (path : String)
  | waited (argv : List String) (path : String)
deriving DecidableEq, Repr

/-- How one `run_pipeline` call ends: the final wait-and-close block
was reached (`completed`), an early `return` was taken (`aborted`), or
an uncaught Python exception propagated out (`crashed`, carrying the
exception message). -/
inductive POutcome where
  | completed
  | aborted
  | crashed (msg : String)
deriving DecidableEq, Repr

/-- Events and outcome of one `run_pipeline` call. -/
structure PResult where
  events : List PEvent
  outcome : POutcome
deriving DecidableEq, Repr

/-- The keys of `Shell.commands_map` (main.py lines 22-29). -/
def commands_map_keys : List String :=
  ["exit", "echo", "type", "pwd", "cd", "history"]

/-- `command_keyword in self.commands_map`. -/
def isBuiltin (name : String) : Bool :=
  commands_map_keys.contains name

/-- Redirection parsing of one stage: `run_pipeline` parses
redirections only on the last segment (`if is_last:`); any other
stage's token list is used as argv unchanged. -/
def stage_redir (isLast : Bool) (toks : List String) : RState :=
  if isLast then parse_redirection toks else ⟨toks, none, none, none, none⟩

/-- File opens performed for a stage's parsed redirections
(`stdout_cm = open(stdout_file, stdout_mode)` etc.).  Python's
`if stdout_file:` is falsy for the empty string, so an empty target is
not opened. -/
def open_events (rd : RState) : List PEvent :=
  (match rd.stdout_file, rd.stdout_mode with
   | some f, some m => if f = "" then [] else [PEvent.openFile f m]
   | _, _ => []) ++
  (match rd.stderr_file, rd.stderr_mode with
   | some f, some m => if f = "" then [] else [PEvent.openFile f m]
   | _, _ => [])

/-- The `for i, segment in enumerate(segments)` loop of
`Shell.run_pipeline`, one recursive call per stage.  Arguments mirror
the loop's mutable state: `prev` is whether `prev_output` is non-`None`,
`procs` the spawned processes (argv and resolved path, in order), `evs`
the events so far.  The empty-list case is the code after the loop:
wait for every spawned process in order, then close the redirect
files. -/
def pipeline_go (env : ShellEnv) :
    List String → Bool → List (List String × String) → List PEvent → PResult
  | [], _, procs, evs =>
      ⟨evs ++ procs.map (fun pr => PEvent.waited pr.1 pr.2), .completed⟩
  | seg :: rest, prev, procs, evs =>
      match shlex_split seg with
      | .error e => ⟨evs, .crashed e⟩
      | .ok toks =>
        let rd := stage_redir rest.isEmpty toks
        let evs2 := evs ++ open_events rd
        match rd.new_args with
        | [] => ⟨evs2, .aborted⟩
        | kw :: _ =>
          if isBuiltin kw then
            let evs3 := evs2 ++ [PEvent.builtinRun rd.new_args]
            match rest with
            | [] => ⟨evs3 ++ procs.map (fun pr => PEvent.waited pr.1 pr.2), .completed⟩
            | nextSeg :: _ =>
              match shlex_split nextSeg with
              | .error e => ⟨evs3, .crashed e⟩
              | .ok nextToks =>
                let next_is_external :=
                  match nextToks with
                  | [] => false
                  | nk :: _ => !isBuiltin nk
                if next_is_external then
                  pipeline_go env rest true procs (evs3 ++ [PEvent.builtinRun rd.new_args])
                else
                  pipeline_go env rest true procs evs3
          else
            match find_executable env kw with
            | none =>
                ⟨evs2 ++ [PEvent.printOut (kw ++ ": command not found")], .aborted⟩
            | some p =>
                pipeline_go env rest (if rest.isEmpty then prev else true)
                  (procs ++ [(rd.new_args, p)]) (evs2 ++ [PEvent.spawned rd.new_args p])

/-- Characters of Python's default `str.strip` set
(`" \t\n\r\x0b\x0c"`). -/
def isPySpace (c : Char) : Bool :=
  c = ' ' || c = '\t' || c = '\n' || c = '\r' || c = '\x0b' || c = '\x0c'

/-- Python `seg.strip()`: drop leading and trailing whitespace. -/
def pyStrip (s : String) : String :=
  ⟨((s.data.dropWhile isPySpace).reverse.dropWhile isPySpace).reverse⟩

/-- `command_line.split("|")` with each segment stripped
(main.py line 410). -/
def split_segments (s : String) : List String :=
  (splitChars '|' s.data).map (fun cs => pyStrip ⟨cs⟩)

/-- `Shell.run_pipeline(command_line)`. -/
def run_pipeline (env : ShellEnv) (line : String) : PResult :=
  pipeline_go env (split_segments line) false [] []

/-! ## Shell loop (`Shell.main_loop`, main.py lines 396-407) -/

/-- The shell state the loop touches: the repl flag and the in-memory
`self.command_history` list. -/
structure ShellState where
  continue_repl : Bool
  command_history : List String
deriving DecidableEq, Repr

/-- What `input("$ ")` produced: end of input (`EOFError`) or a line. -/
inductive ReadResult where
  | eof
  | line (s : String)
deriving DecidableEq, Repr

/-- Result of one iteration of `main_loop`: the loop `break`s (EOF),
goes round again, or dies on an uncaught exception (carrying the shell
state at the moment the exception escaped). -/
inductive StepResult where
  | exitLoop (st : ShellState) (events : List PEvent)
  | looped (st : ShellState) (events : List PEvent)
  | crashed (msg : String) (st : ShellState) (events : List PEvent)
deriving DecidableEq, Repr

/-- One iteration of `Shell.main_loop`: on EOF print a newline and
break; otherwise append the raw line to `self.command_history` and run
`run_pipeline` on it.  `run_pipeline` is called with no exception
handler, so a crashed pipeline crashes the loop. -/
def main_loop_step (env : ShellEnv) (st : ShellState) : ReadResult → StepResult
  | .eof => .exitLoop st [PEvent.printOut ""]
  | .line s =>
      let st2 : ShellState := { st with command_history := st.command_history ++ [s] }
      let r := run_pipeline env s
      match r.outcome with
      | .crashed e => .crashed e st2 r.events
      | _ => .looped st2 r.events

/-- The command history recorded in a step's resulting state. -/
def step_history : StepResult → List String
  | .exitLoop st _ => st.command_history
  | .looped st _ => st.command_history
  | .crashed _ st _ => st.command_history

/-! ## Builtin `exit` (`Shell.execute_exit`, main.py lines 197-201) -/

/-- `Shell.execute_exit(args)`: reads `args[1]` (default `"0"`) and
sets `self.continue_repl = False` only when it equals `"0"`.  Returns
the new `continue_repl` value and the lines printed (always none: the
function neither reports anything nor raises nor calls `sys.exit`). -/
def execute_exit (continue_repl : Bool) (args : List String) : Bool × List String :=
  let status_code := match args with
    | _ :: c :: _ => c
    | _ => "0"
  (if status_code = "0" then false else continue_repl, [])

/-! ## Builtin `cd` (`Shell.execute_cd`, main.py lines 334-343) -/

/-- Outcome of `os.chdir(path)` in the abstract environment. -/
inductive ChdirOutcome where
  | success
  | fileNotFound
  | otherError (name : String)
deriving DecidableEq, Repr

/-- Python exceptions that can escape `execute_cd` uncaught. -/
inductive PyExc where
  | indexError
  | osError (name : String)
deriving DecidableEq, Repr

/-- Environment for `cd`: the home directory (for `~` expansion) and
the `os.chdir` oracle. -/
structure CdEnv where
  home : String
  chdirRes : String → ChdirOutcome

/-- Result of `Shell.execute_cd`: lines printed via `print` (each goes
to the current `sys.stdout`, with a newline appended), the target of a
successful `os.chdir` (or `none` when the directory did not change),
and an exception escaping uncaught, if any. -/
structure CdResult where
  printed : List String
  chdirTo : Option String
  raised : Option PyExc
deriving DecidableEq, Repr

/-- Stripping the trailing `/` characters of a home value, as CPython's
`expanduser` does with `userhome.rstrip(root)`. -/
def pyRstripSlashes (s : String) : String :=
  ⟨(s.data.reverse.dropWhile (fun c => c = '/')).reverse⟩

/-- Whether a path starts with `~/`. -/
def tildeSlash (path : String) : Bool :=
  match path.data with
  | '~' :: '/' :: _ => true
  | _ => false

/-- `os.path.expanduser(path)` for POSIX, modelled with an empty
passwd database: a bare `~` or a `~/...` path expands using the
home value (CPython strips trailing slashes from the home and falls
back to `/` for an empty result); `~user` forms find no such user and
are returned unchanged (CPython returns the path on `KeyError`). -/
def expanduser (home path : String) : String :=
  if path = "~" ∨ tildeSlash path = true then
    let r := pyRstripSlashes home ++ String.mk (path.data.drop 1)
    if r = "" then "/" else r
  else path

/-- `Shell.execute_cd(args)`: a missing argument first prints
`cd: missing argument` and then raises `IndexError` at `args[1]`;
otherwise `os.chdir(os.path.expanduser(args[1]))` is attempted, with
only `FileNotFoundError` caught and reported (via `print`, to
`sys.stdout`). -/
def execute_cd (env : CdEnv) (args : List String) : CdResult :=
  match args with
  | [] => ⟨["cd: missing argument"], none, some .indexError⟩
  | [_] => ⟨["cd: missing argument"], none, some .indexError⟩
  | _ :: t :: _ =>
      let target := expanduser env.home t
      match env.chdirRes target with
      | .success => ⟨[], some target, none⟩
      | .fileNotFound =>
          ⟨["cd: " ++ t ++ ": No such file or directory"], none, none⟩
      | .otherError n => ⟨[], none, some (.osError n)⟩

/-! ## Concrete environments used by counterexamples and witnesses -/

/-- A filesystem with exactly two executables, `/bin/cata` and
`/bin/alpha`. -/
def fsBin : FS :=
  ⟨fun p => p == "/bin/cata" || p == "/bin/alpha",
   fun p => p == "/bin/cata" || p == "/bin/alpha"⟩

/-- Shell environment with `PATH=/bin` over `fsBin`. -/
def envBin : ShellEnv := ⟨fsBin, "/bin"⟩

/-- A filesystem whose only executable is the relative path `d/x`. -/
def fsRel : FS := ⟨fun p => p == "d/x", fun p => p == "d/x"⟩

/-! ## Lemmas about the redirection scan -/

/-- Scanning an operator followed by a filename applies the branch
table and continues behind the pair. -/
theorem prGo_op_pair (op f : String) (rest : List String) (st : RState)
    (h : isRedirOp op = true) :
    prGo (op :: f :: rest) st = prGo rest (applyRedir op f st) := by
  simp only [isRedirOp, Bool.or_eq_true, beq_iff_eq] at h
  rcases h with ((((h | h) | h) | h) | h) | h <;> subst h <;> rfl

/-- A redirection operator that is the final token is dropped without
effect. -/
theorem prGo_dangling (op : String) (st : RState) (h : isRedirOp op = true) :
    prGo [op] st = st := by
  simp only [isRedirOp, Bool.or_eq_true, beq_iff_eq] at h
  rcases h with ((((h | h) | h) | h) | h) | h <;> subst h <;> rfl

/-- A non-operator token is appended to the accumulated argv. -/
theorem prGo_plain (a : String) (l : List String) (st : RState)
    (h : isRedirOp a = false) :
    prGo (a :: l) st = prGo l { st with new_args := st.new_args ++ [a] } := by
  simp only [isRedirOp, Bool.or_eq_false_iff, beq_eq_false_iff_ne, ne_eq] at h
  obtain ⟨⟨⟨⟨⟨h1, h2⟩, h3⟩, h4⟩, h5⟩, h6⟩ := h
  conv_lhs => rw [prGo.eq_def]
  simp [h1, h2, h3, h4, h5, h6]

/-- An operator-free token list only extends the argv. -/
theorem prGo_noOps : ∀ (ys : List String) (st : RState),
    (∀ t ∈ ys, isRedirOp t = false) → prGo ys st = appendArgs st ys := by
  intro ys
  induction ys with
  | nil => intro st _; simp [prGo, appendArgs]
  | cons t rest ih =>
      intro st h
      rw [prGo_plain t rest st (h t (by simp))]
      rw [ih _ (fun x hx => h x (by simp [hx]))]
      simp [appendArgs]

/-- Dropping the head of a token list preserves `EndsClean`. -/
theorem endsClean_cons {a : String} {l : List String} (h : EndsClean (a :: l)) :
    EndsClean l := by
  intro b hb
  apply h
  cases l with
  | nil => cases hb
  | cons c t => rw [List.getLast?_cons_cons]; exact hb

/-- The empty list is `EndsClean`. -/
theorem endsClean_nil : EndsClean [] := by
  intro b hb
  cases hb

/-- Fuel-indexed composition: scanning `xs ++ ys` equals scanning `xs`
and continuing with `ys`, provided `xs` does not end in a pending
operator. -/
theorem prGo_append_fuel : ∀ (n : Nat) (xs ys : List String) (st : RState),
    xs.length ≤ n → EndsClean xs →
    prGo (xs ++ ys) st = prGo ys (prGo xs st) := by
  intro n
  induction n with
  | zero =>
      intro xs ys st hl _
      have hx : xs = [] := List.eq_nil_of_length_eq_zero (Nat.le_zero.mp hl)
      subst hx
      simp [prGo]
  | succ n ih =>
      intro xs ys st hl hc
      match xs with
      | [] => simp [prGo]
      | a :: rest =>
        by_cases hop : isRedirOp a = true
        · match rest with
          | [] =>
              exact absurd (hc a rfl) (by simp [hop])
          | f :: rest2 =>
              have hcr : EndsClean rest2 := endsClean_cons (endsClean_cons hc)
              have hlen : rest2.length ≤ n := by
                simp only [List.length_cons] at hl
                omega
              calc prGo ((a :: f :: rest2) ++ ys) st
                  = prGo (a :: f :: (rest2 ++ ys)) st := by simp
                _ = prGo (rest2 ++ ys) (applyRedir a f st) := prGo_op_pair a f _ st hop
                _ = prGo ys (prGo rest2 (applyRedir a f st)) := ih rest2 ys _ hlen hcr
                _ = prGo ys (prGo (a :: f :: rest2) st) := by
                      rw [prGo_op_pair a f rest2 st hop]
        · have hop2 : isRedirOp a = false := by
            cases hfa : isRedirOp a with
            | true => exact absurd hfa hop
            | false => rfl
          have hcr : EndsClean rest := endsClean_cons hc
          have hlen : rest.length ≤ n := by
            simp only [List.length_cons] at hl
            omega
          calc prGo ((a :: rest) ++ ys) st
              = prGo (a :: (rest ++ ys)) st := by simp
            _ = prGo (rest ++ ys) { st with new_args := st.new_args ++ [a] } :=
                  prGo_plain a _ st hop2
            _ = prGo ys (prGo rest { st with new_args := st.new_args ++ [a] }) :=
                  ih rest ys _ hlen hcr
            _ = prGo ys (prGo (a :: rest) st) := by rw [prGo_plain a rest st hop2]

/-- Composition of the redirection scan over concatenation. -/
theorem prGo_append (xs ys : List String) (st : RState) (hc : EndsClean xs) :
    prGo (xs ++ ys) st = prGo ys (prGo xs st) :=
  prGo_append_fuel xs.length xs ys st (Nat.le_refl _) hc

/-! ## Lemmas about the resolver scan -/

/-- The directory scan fails exactly when no directory matches. -/
theorem find_in_dirs_none_iff (fs : FS) (name : String) :
    ∀ l : List String,
      find_in_dirs fs name l = none ↔ ∀ d ∈ l, ¬ dirMatch fs name d := by
  intro l
  induction l with
  | nil => simp [find_in_dirs]
  | cons d rest ih =>
      by_cases h : fs.isFile (os_path_join d name) = true ∧ fs.isExec (os_path_join d name) = true
      · rw [find_in_dirs, if_pos h]
        simp only [List.mem_cons]
        constructor
        · intro he
          cases he
        · intro hall
          exact absurd h (hall d (Or.inl rfl))
      · rw [find_in_dirs, if_neg h, ih]
        simp only [List.mem_cons]
        constructor
        · intro hall d2 hd2
          rcases hd2 with rfl | hd2
          · exact h
          · exact hall d2 hd2
        · intro hall d2 hd2
          exact hall d2 (Or.inr hd2)

/-- The directory scan succeeds with the join of the first matching
directory: the path list splits into a non-matching prefix, the
matching directory, and an arbitrary rest. -/
theorem find_in_dirs_some_iff (fs : FS) (name : String) :
    ∀ (l : List String) (p : String),
      find_in_dirs fs name l = some p ↔
        ∃ pre d suf, l = pre ++ d :: suf ∧ (∀ d2 ∈ pre, ¬ dirMatch fs name d2) ∧
          dirMatch fs name d ∧ p = os_path_join d name := by
  intro l
  induction l with
  | nil =>
      intro p
      simp [find_in_dirs]
  | cons d rest ih =>
      intro p
      by_cases h : fs.isFile (os_path_join d name) = true ∧ fs.isExec (os_path_join d name) = true
      · rw [find_in_dirs, if_pos h]
        constructor
        · intro he
          refine ⟨[], d, rest, rfl, by simp, h, ?_⟩
          exact (Option.some_inj.mp he).symm
        · rintro ⟨pre, d2, suf, hl, hpre, hd2, hp⟩
          cases pre with
          | nil =>
              simp only [List.nil_append, List.cons.injEq] at hl
              rw [hp, hl.1]
          | cons e pre2 =>
              simp only [List.cons_append, List.cons.injEq] at hl
              exact absurd h (hl.1 ▸ hpre e (List.mem_cons_self e pre2))
      · rw [find_in_dirs, if_neg h, ih]
        constructor
        · rintro ⟨pre, d2, suf, hl, hpre, hd2, hp⟩
          refine ⟨d :: pre, d2, suf, by rw [hl, List.cons_append], ?_, hd2, hp⟩
          intro x hx
          rcases List.mem_cons.mp hx with rfl | hx
          · exact h
          · exact hpre x hx
        · rintro ⟨pre, d2, suf, hl, hpre, hd2, hp⟩
          cases pre with
          | nil =>
              simp only [List.nil_append, List.cons.injEq] at hl
              exact absurd (hl.1 ▸ hd2) h
          | cons e pre2 =>
              simp only [List.cons_append, List.cons.injEq] at hl
              refine ⟨pre2, d2, suf, hl.2, ?_, hd2, hp⟩
              intro x hx
              exact hpre x (List.mem_cons_of_mem e hx)

/-! ## Step lemmas for the orchestrator loop -/

/-- After the loop: every spawned process is waited, in order. -/
theorem pgo_nil (env : ShellEnv) (prev : Bool)
    (procs : List (List String × String)) (evs : List PEvent) :
    pipeline_go env [] prev procs evs =
      ⟨evs ++ procs.map (fun pr => PEvent.waited pr.1 pr.2), .completed⟩ := rfl

/-- A stage whose tokenization raises propagates the exception out of
`run_pipeline` at once: no further stage runs and no process is
waited. -/
theorem pgo_crash (env : ShellEnv) (seg : String) (rest : List String) (prev : Bool)
    (procs : List (List String × String)) (evs : List PEvent) (e : String)
    (hsp : shlex_split seg = .error e) :
    pipeline_go env (seg :: rest) prev procs evs = ⟨evs, .crashed e⟩ := by
  rw [pipeline_go, hsp]

/-- A stage with an empty parsed argv takes the `return` on line 430:
the pipeline stops silently (after any redirect-file opens of a last
stage). -/
theorem pgo_empty (env : ShellEnv) (seg : String) (rest : List String) (prev : Bool)
    (procs : List (List String × String)) (evs : List PEvent) (toks : List String)
    (hsp : shlex_split seg = .ok toks)
    (hargs : (stage_redir rest.isEmpty toks).new_args = []) :
    pipeline_go env (seg :: rest) prev procs evs =
      ⟨evs ++ open_events (stage_redir rest.isEmpty toks), .aborted⟩ := by
  rw [pipeline_go, hsp]
  simp only [hargs]

/-- An external stage whose name does not resolve prints
`<name>: command not found` (a plain `print`, to the shell's stdout)
and takes the `return` on line 486: remaining stages are skipped and
no process is waited. -/
theorem pgo_notfound (env : ShellEnv) (seg : String) (rest : List String) (prev : Bool)
    (procs : List (List String × String)) (evs : List PEvent) (toks : List String)
    (kw : String) (t : List String)
    (hsp : shlex_split seg = .ok toks)
    (hargs : (stage_redir rest.isEmpty toks).new_args = kw :: t)
    (hb : isBuiltin kw = false)
    (hf : find_executable env kw = none) :
    pipeline_go env (seg :: rest) prev procs evs =
      ⟨evs ++ open_events (stage_redir rest.isEmpty toks) ++
        [PEvent.printOut (kw ++ ": command not found")], .aborted⟩ := by
  rw [pipeline_go, hsp]
  simp only [hargs, hb, hf, Bool.false_eq_true, if_false, List.append_assoc]

/-- An external stage that resolves is spawned with argv exactly the
stage's parsed token list and the loop moves to the next stage. -/
theorem pgo_spawn (env : ShellEnv) (seg : String) (rest : List String) (prev : Bool)
    (procs : List (List String × String)) (evs : List PEvent) (toks : List String)
    (kw : String) (t : List String) (p : String)
    (hsp : shlex_split seg = .ok toks)
    (hargs : (stage_redir rest.isEmpty toks).new_args = kw :: t)
    (hb : isBuiltin kw = false)
    (hf : find_executable env kw = some p) :
    pipeline_go env (seg :: rest) prev procs evs =
      pipeline_go env rest (if rest.isEmpty then prev else true)
        (procs ++ [((stage_redir rest.isEmpty toks).new_args, p)])
        (evs ++ open_events (stage_redir rest.isEmpty toks) ++
          [PEvent.spawned (stage_redir rest.isEmpty toks).new_args p]) := by
  rw [pipeline_go, hsp]
  simp only [hargs, hb, hf, Bool.false_eq_true, if_false, List.append_assoc]

/-- Events that are `waited` records. -/
def isWaitedEv : PEvent → Bool
  | .waited _ _ => true
  | _ => false

/-- Redirect-file opens are never waits. -/
theorem mem_open_events_not_waited (rd : RState) :
    ∀ e ∈ open_events rd, isWaitedEv e = false := by
  intro e he
  unfold open_events at he
  rw [List.mem_append] at he
  rcases he with he | he <;> split at he <;> (try split at he) <;>
    simp_all [isWaitedEv]

/-- Waits are absent from a concatenation when absent from both
parts. -/
theorem no_wait_append {evs more : List PEvent}
    (h1 : ∀ e ∈ evs, isWaitedEv e = false)
    (h2 : ∀ e ∈ more, isWaitedEv e = false) :
    ∀ e ∈ evs ++ more, isWaitedEv e = false := by
  intro e he
  rcases List.mem_append.mp he with he | he
  · exact h1 e he
  · exact h2 e he

/-- A singleton list of a non-wait event has no waits. -/
theorem no_wait_singleton (x : PEvent) (hx : isWaitedEv x = false) :
    ∀ e ∈ [x], isWaitedEv e = false := by
  intro e he
  rw [List.mem_singleton] at he
  subst he
  exact hx

/-- Key reaping fact: if a `run_pipeline` loop does not reach its final
wait block (any early `return` or uncaught exception), then no `waited`
event appears beyond those already accumulated — already-spawned
processes are never waited. -/
theorem pipeline_go_no_new_waited (env : ShellEnv) :
    ∀ (segs : List String) (prev : Bool) (procs : List (List String × String))
      (evs : List PEvent),
      (∀ e ∈ evs, isWaitedEv e = false) →
      (pipeline_go env segs prev procs evs).outcome ≠ POutcome.completed →
      ∀ e ∈ (pipeline_go env segs prev procs evs).events, isWaitedEv e = false := by
  intro segs
  induction segs with
  | nil =>
      intro prev procs evs _ hout
      exact absurd rfl hout
  | cons seg rest ih =>
      intro prev procs evs hevs hout
      rcases hsp : shlex_split seg with e | toks
      · rw [pgo_crash env seg rest prev procs evs e hsp] at hout ⊢
        exact hevs
      · rcases hargs : (stage_redir rest.isEmpty toks).new_args with _ | ⟨kw, t⟩
        · rw [pgo_empty env seg rest prev procs evs toks hsp hargs] at hout ⊢
          exact no_wait_append hevs (mem_open_events_not_waited _)
        · by_cases hb : isBuiltin kw = true
          · -- builtin stage: the lookahead branch (main.py lines 434-480)
            rw [pipeline_go, hsp] at hout ⊢
            simp only [hargs, hb, if_true] at hout ⊢
            cases rest with
            | nil =>
                simp only [] at hout
                exact absurd rfl hout
            | cons nextSeg rest2 =>
                rcases hnx : shlex_split nextSeg with e2 | nextToks
                · simp only [hnx] at hout ⊢
                  exact no_wait_append (no_wait_append hevs (mem_open_events_not_waited _))
                    (no_wait_singleton _ rfl)
                · simp only [hnx] at hout ⊢
                  have hbase : ∀ e ∈ evs ++ open_events (stage_redir (nextSeg :: rest2).isEmpty toks) ++
                      [PEvent.builtinRun (kw :: t)],
                      isWaitedEv e = false :=
                    no_wait_append (no_wait_append hevs (mem_open_events_not_waited _))
                      (no_wait_singleton _ rfl)
                  cases nextToks with
                  | nil =>
                      simp only [] at hout ⊢
                      exact ih true procs _ hbase hout
                  | cons nk nt =>
                      cases hnb : isBuiltin nk with
                      | true =>
                          simp only [hnb, Bool.not_true, Bool.false_eq_true, if_false] at hout ⊢
                          exact ih true procs _ hbase hout
                      | false =>
                          simp only [hnb, Bool.not_false, if_true] at hout ⊢
                          exact ih true procs _
                            (no_wait_append hbase (no_wait_singleton _ rfl)) hout
          · have hbf : isBuiltin kw = false := by
              cases hq : isBuiltin kw with
              | true => exact absurd hq hb
              | false => rfl
            rcases hf : find_executable env kw with _ | p
            · rw [pgo_notfound env seg rest prev procs evs toks kw t hsp hargs hbf hf]
                at hout ⊢
              exact no_wait_append
                (no_wait_append hevs (mem_open_events_not_waited _))
                (no_wait_singleton _ rfl)
            · rw [pgo_spawn env seg rest prev procs evs toks kw t p hsp hargs hbf hf]
                at hout ⊢
              exact ih _ _ _
                (no_wait_append
                  (no_wait_append hevs (mem_open_events_not_waited _))
                  (no_wait_singleton _ rfl)) hout



/-- Once the lexer is inside a quote, if no closing quote character
(and no escape character) remains, the end of input is reached in the
quote state and `shlex` raises `ValueError("No closing quotation")`. -/
theorem shlexGo_open_quote : ∀ (w : List Char) (q : Char) (tok : String)
    (quoted : Bool) (acc : List String),
    (∀ c ∈ w, c ≠ q ∧ c ≠ '\\') →
    shlexGo w (.quo q) tok quoted acc = .error "No closing quotation" := by
  intro w
  induction w with
  | nil => intro q tok quoted acc _; rfl
  | cons c cs ih =>
      intro q tok quoted acc h
      have hc := h c (List.mem_cons_self c cs)
      rw [shlexGo, if_neg hc.1, if_neg (fun hand => hc.2 hand.1)]
      exact ih q _ true acc (fun c2 hc2 => h c2 (List.mem_cons_of_mem c hc2))

/-! ## Claims -/

/-- Claim C9: for every stage token list, redirection parsing removes
each recognized operator together with its one following filename
token from the resulting argv, operators may appear anywhere, and for
repeated redirection of the same stream the last occurrence wins
(the branch table `applyRedir` overwrites the stream's fields whatever
the prefix set them to); concretely, `echo hi > out.txt` yields
argv `["echo","hi"]` with stdout redirected in overwrite mode to
`out.txt`. -/
theorem claim_C9 :
    (∀ (xs : List String) (op f : String) (ys : List String),
        isRedirOp op = true → EndsClean xs → (∀ t ∈ ys, isRedirOp t = false) →
        parse_redirection (xs ++ op :: f :: ys) =
          appendArgs (applyRedir op f (parse_redirection xs)) ys) ∧
    parse_redirection ["echo", "hi", ">", "out.txt"] =
      ⟨["echo", "hi"], some "out.txt", some "w", none, none⟩ := by
  constructor
  · intro xs op f ys hop hc hys
    unfold parse_redirection
    rw [prGo_append xs (op :: f :: ys) _ hc]
    rw [prGo_op_pair op f ys _ hop]
    exact prGo_noOps ys _ hys
  · rfl

/-- Claim C9 witness: a later stdout redirection overrides an earlier
one, through `claim_C9` at a concrete input. -/
theorem claim_C9_witness :
    parse_redirection ["alpha", ">", "f1", ">", "f2"] =
      ⟨["alpha"], some "f2", some "w", none, none⟩ := by
  have h := claim_C9.1 ["alpha", ">", "f1"] ">" "f2" []
    (by rfl)
    (by
      intro a ha
      simp only [List.getLast?_cons_cons, List.getLast?_singleton,
        Option.some.injEq] at ha
      subst ha
      rfl)
    (by intro t ht; cases ht)
  exact h.trans (by rfl)

/-- Claim C6 counterexample: a redirection operator with no following
filename does not make parsing fail — `parse_redirection` is total
(mirroring the Python function, which raises nothing) and at `[">"]`
it silently drops the dangling operator and returns a normal result,
instead of the claimed SyntaxError(missing-redirect-target). -/
theorem claim_C6_counterexample :
    parse_redirection [">"] = ⟨[], none, none, none, none⟩ := rfl

/-- Claim C6 (amended): a redirection operator that is the final token
of a stage is silently dropped: it is removed from the argv, sets no
redirection, and no error of any kind is raised — the stage is not
aborted; concretely `["echo","hi",">"]` parses to argv `["echo","hi"]`
with no redirect. -/
theorem claim_C6 :
    (∀ (xs : List String) (op : String), isRedirOp op = true → EndsClean xs →
        parse_redirection (xs ++ [op]) = parse_redirection xs) ∧
    parse_redirection ["echo", "hi", ">"] =
      ⟨["echo", "hi"], none, none, none, none⟩ := by
  constructor
  · intro xs op hop hc
    unfold parse_redirection
    rw [prGo_append xs [op] _ hc, prGo_dangling op _ hop]
  · rfl

/-- Claim C6 witness: `claim_C6` applied at a concrete input. -/
theorem claim_C6_witness :
    parse_redirection ["x", "2>>"] = ⟨["x"], none, none, none, none⟩ := by
  have h := claim_C6.1 ["x"] "2>>" (by rfl)
    (by
      intro a ha
      simp only [List.getLast?_singleton, Option.some.injEq] at ha
      subst ha
      rfl)
  exact h.trans (by rfl)

/-- Claim C4 counterexample: resolution does not test a
separator-containing name literally.  On a filesystem where the
relative path `d/x` is an executable regular file and `PATH=/p`, the
code's resolver returns not-found (it only tests `/p/d/x`), while the
resolution order stated in the claim would return `d/x`. -/
theorem claim_C4_counterexample :
    find_executable ⟨fsRel, "/p"⟩ "d/x" = none ∧
    fsRel.isFile "d/x" = true ∧ fsRel.isExec "d/x" = true ∧
    find_executable_claimed fsRel "/p" "d/x" = some "d/x" := by
  refine ⟨rfl, rfl, rfl, rfl⟩

/-- Claim C4 (amended): executable resolution has no literal-path and
no cwd-relative step: for every name (with or without a separator) it
scans only the colon-split search-path list in listed order, joining
each directory with the name; the first directory whose joined path is
a regular file with the execute bit wins, non-regular files and files
without the execute bit never match, and failure yields not-found
(`None`) rather than an error. -/
theorem claim_C4 :
    ∀ (env : ShellEnv) (name : String),
      (∀ p, find_executable env name = some p ↔
        ∃ pre d suf, split_path env.pathVar = pre ++ d :: suf ∧
          (∀ d2 ∈ pre, ¬ dirMatch env.fs name d2) ∧ dirMatch env.fs name d ∧
          p = os_path_join d name) ∧
      (find_executable env name = none ↔
        ∀ d ∈ split_path env.pathVar, ¬ dirMatch env.fs name d) ∧
      (∀ p, find_executable env name = some p →
        env.fs.isFile p = true ∧ env.fs.isExec p = true) := by
  intro env name
  refine ⟨fun p => find_in_dirs_some_iff env.fs name _ p,
    find_in_dirs_none_iff env.fs name _, ?_⟩
  intro p hp
  rcases (find_in_dirs_some_iff env.fs name _ p).mp hp with ⟨pre, d, suf, _, _, hd, hpj⟩
  rw [hpj]
  exact hd

/-- Claim C4 witness: `claim_C4` applied at a concrete environment:
with `PATH=/a:/b` and only `/b/x` executable, the second directory is
the first match. -/
theorem claim_C4_witness :
    find_executable ⟨⟨fun p => p == "/b/x", fun p => p == "/b/x"⟩, "/a:/b"⟩ "x" =
      some "/b/x" := by
  have h := (claim_C4 ⟨⟨fun p => p == "/b/x", fun p => p == "/b/x"⟩, "/a:/b"⟩ "x").1 "/b/x"
  exact h.mpr ⟨["/a"], "/b", [], by decide, by decide, by decide, by decide⟩

/-- Claim C2 counterexample: `execute_exit` given the non-numeric
argument `"abc"` neither reports anything nor forces an exit — the
repl flag stays `true` and nothing is printed; likewise the numeric
argument `"5"` does not terminate the shell (only the literal string
`"0"` is handled). -/
theorem claim_C2_counterexample :
    execute_exit true ["exit", "abc"] = (true, []) ∧
    execute_exit true ["exit", "5"] = (true, []) := by
  refine ⟨rfl, rfl⟩

/-- Claim C2 (amended): the builtin `exit` stops the read-eval loop
only when its argument is absent or is exactly the string `"0"` (the
process then leaves `main_loop` normally); any other argument, numeric
or not, is silently ignored: the repl flag is unchanged, nothing is
reported and no exit code is produced. -/
theorem claim_C2 :
    (∀ (cr : Bool) (rest : List String),
        execute_exit cr ("exit" :: "0" :: rest) = (false, [])) ∧
    (∀ cr : Bool, execute_exit cr ["exit"] = (false, [])) ∧
    (∀ (cr : Bool) (a : String) (rest : List String), a ≠ "0" →
        execute_exit cr ("exit" :: a :: rest) = (cr, [])) := by
  refine ⟨fun cr rest => rfl, fun cr => rfl, ?_⟩
  intro cr a rest ha
  unfold execute_exit
  simp [ha]

/-- Claim C2 witness: `claim_C2` applied at a concrete argument. -/
theorem claim_C2_witness :
    execute_exit true ["exit", "7"] = (true, []) :=
  claim_C2.2.2 true "7" [] (by decide)

/-- Claim C8 counterexample: `cd` to a missing path prints its
diagnostic with `print` — recorded as a printed line to `sys.stdout`,
not to stderr — and `cd` with no argument does not change to the home
directory: it prints `cd: missing argument` and then raises an
uncaught `IndexError` at `args[1]`. -/
theorem claim_C8_counterexample :
    execute_cd ⟨"/home/user", fun _ => ChdirOutcome.fileNotFound⟩ ["cd", "/nonexistent"] =
      ⟨["cd: /nonexistent: No such file or directory"], none, none⟩ ∧
    execute_cd ⟨"/home/user", fun _ => ChdirOutcome.fileNotFound⟩ ["cd"] =
      ⟨["cd: missing argument"], none, some PyExc.indexError⟩ := by
  refine ⟨rfl, rfl⟩

/-- Claim C8 (amended): `cd` on a missing target writes exactly
`cd: <arg>: No such file or directory` (plus the newline `print`
appends) to stdout — not stderr — and leaves the working directory
unchanged; `cd` with no argument does not go home: it prints
`cd: missing argument` to stdout and raises an uncaught `IndexError`;
a successful `cd` changes to the `~`-expanded target, and a bare `~`
expands to the home directory. -/
theorem claim_C8 :
    (∀ (env : CdEnv) (t : String) (rest : List String),
        env.chdirRes (expanduser env.home t) = ChdirOutcome.fileNotFound →
        execute_cd env ("cd" :: t :: rest) =
          ⟨["cd: " ++ t ++ ": No such file or directory"], none, none⟩) ∧
    (∀ env : CdEnv, execute_cd env ["cd"] =
        ⟨["cd: missing argument"], none, some PyExc.indexError⟩) ∧
    (∀ (env : CdEnv) (t : String) (rest : List String),
        env.chdirRes (expanduser env.home t) = ChdirOutcome.success →
        execute_cd env ("cd" :: t :: rest) = ⟨[], some (expanduser env.home t), none⟩) ∧
    (∀ home : String, pyRstripSlashes home = home → home ≠ "" →
        expanduser home "~" = home) ∧
    expanduser "/home/user" "~/doc" = "/home/user/doc" := by
  refine ⟨?_, fun env => rfl, ?_, ?_, rfl⟩
  · intro env t rest h
    unfold execute_cd
    simp only [h]
  · intro env t rest h
    unfold execute_cd
    simp only [h]
  · intro home hnd hne
    unfold expanduser
    rw [if_pos (Or.inl rfl)]
    simp only [hnd, show String.mk (("~" : String).data.drop 1) = "" from rfl]
    simp [hne]

/-- Claim C8 witness: `claim_C8` applied with a concrete environment:
`cd ~` with a succeeding `chdir` lands in the home directory. -/
theorem claim_C8_witness :
    execute_cd ⟨"/home/user", fun _ => ChdirOutcome.success⟩ ["cd", "~"] =
      ⟨[], some "/home/user", none⟩ := by
  have h := claim_C8.2.2.1 ⟨"/home/user", fun _ => ChdirOutcome.success⟩ "~" [] rfl
  exact h.trans (by rfl)

/-- Claim C10: every line accepted at the prompt — empty, whitespace
only, or one whose execution aborts or even crashes — is appended to
the in-memory command history before the pipeline runs, so the
recorded history after the step is the old history plus exactly that
line, and its length grows by exactly one. -/
theorem claim_C10 :
    ∀ (env : ShellEnv) (st : ShellState) (s : String),
      step_history (main_loop_step env st (.line s)) = st.command_history ++ [s] ∧
      (step_history (main_loop_step env st (.line s))).length =
        st.command_history.length + 1 := by
  intro env st s
  have h : step_history (main_loop_step env st (.line s)) = st.command_history ++ [s] := by
    unfold main_loop_step
    rcases hr : (run_pipeline env s).outcome with _ | _ | e <;>
      simp [hr, step_history]
  refine ⟨h, ?_⟩
  rw [h]
  simp

/-- Claim C5 counterexample: the line `echo "hi` has an unterminated
quote; instead of a reported error, an abandoned line and a resumed
prompt, the tokenizer's `ValueError` propagates uncaught through
`run_pipeline` and `main_loop`, crashing the shell. -/
theorem claim_C5_counterexample :
    main_loop_step envBin ⟨true, []⟩ (.line "echo \"hi") =
      .crashed "No closing quotation" ⟨true, ["echo \"hi"]⟩ [] := by
  rfl

/-- Claim C5 (amended): a line left inside a quote at end of input
makes tokenization raise `ValueError("No closing quotation")` —
generally, once the lexer is inside a quote with no closing character
remaining, that error is certain — and nothing catches it: a crashed
`run_pipeline` makes `main_loop` terminate with the uncaught exception
(the line is still recorded in history first), instead of reporting
one line and continuing with a new prompt. -/
theorem claim_C5 :
    (∀ (w : List Char) (q : Char) (tok : String) (quoted : Bool) (acc : List String),
        (∀ c ∈ w, c ≠ q ∧ c ≠ '\\') →
        shlexGo w (.quo q) tok quoted acc = .error "No closing quotation") ∧
    (∀ (env : ShellEnv) (st : ShellState) (s : String) (e : String),
        (run_pipeline env s).outcome = .crashed e →
        main_loop_step env st (.line s) =
          .crashed e ⟨st.continue_repl, st.command_history ++ [s]⟩
            (run_pipeline env s).events) := by
  refine ⟨shlexGo_open_quote, ?_⟩
  intro env st s e h
  unfold main_loop_step
  simp only [h]

/-- Claim C5 witness: `claim_C5` applied at a concrete crashing line
and shell state. -/
theorem claim_C5_witness :
    main_loop_step envBin ⟨false, ["x"]⟩ (.line "echo \"hi") =
      .crashed "No closing quotation" ⟨false, ["x", "echo \"hi"]⟩ [] := by
  have h := claim_C5.2 envBin ⟨false, ["x"]⟩ "echo \"hi" "No closing quotation" (by rfl)
  exact h.trans (by rfl)

/-- Claim C7 counterexample: `| cata` splits into segments
`["", "cata"]` — the split does yield an empty stage — and running it
produces no SyntaxError and no report at all: the pipeline silently
returns with no events. -/
theorem claim_C7_counterexample :
    split_segments "| cata" = ["", "cata"] ∧
    run_pipeline envBin "| cata" = ⟨[], .aborted⟩ := by
  refine ⟨rfl, rfl⟩

/-- Claim C7 (amended): splitting on `|` can produce empty stages and
no SyntaxError(empty-pipeline-stage) exists: a stage that tokenizes to
nothing (and, for a last stage, one whose parsed argv is empty, after
any redirect-file opens) makes `run_pipeline` return silently at that
stage, skipping the rest and never reaching the wait block; the shell
loop then simply continues with the line recorded in history. -/
theorem claim_C7 :
    (∀ (env : ShellEnv) (seg : String) (rest : List String) (prev : Bool)
        (procs : List (List String × String)) (evs : List PEvent),
        shlex_split seg = .ok [] →
        pipeline_go env (seg :: rest) prev procs evs = ⟨evs, .aborted⟩) ∧
    (∀ (env : ShellEnv) (seg : String) (prev : Bool)
        (procs : List (List String × String)) (evs : List PEvent) (toks : List String),
        shlex_split seg = .ok toks → (parse_redirection toks).new_args = [] →
        pipeline_go env [seg] prev procs evs =
          ⟨evs ++ open_events (parse_redirection toks), .aborted⟩) ∧
    (∀ (env : ShellEnv) (st : ShellState) (line : String),
        (run_pipeline env line).outcome = POutcome.aborted →
        main_loop_step env st (.line line) =
          .looped ⟨st.continue_repl, st.command_history ++ [line]⟩
            (run_pipeline env line).events) := by
  refine ⟨?_, ?_, ?_⟩
  · intro env seg rest prev procs evs hsp
    have hargs : (stage_redir rest.isEmpty []).new_args = [] := by
      cases rest <;> rfl
    have hopen : open_events (stage_redir rest.isEmpty []) = [] := by
      cases rest <;> rfl
    rw [pgo_empty env seg rest prev procs evs [] hsp hargs, hopen, List.append_nil]
  · intro env seg prev procs evs toks hsp hargs
    exact pgo_empty env seg [] prev procs evs toks hsp hargs
  · intro env st line h
    unfold main_loop_step
    simp only [h]

/-- Claim C7 witness: `claim_C7` applied at the concrete line
`| cata`: the loop continues after the silent abort. -/
theorem claim_C7_witness :
    main_loop_step envBin ⟨true, ["p"]⟩ (.line "| cata") =
      .looped ⟨true, ["p", "| cata"]⟩ [] := by
  have h := claim_C7.2.2 envBin ⟨true, ["p"]⟩ "| cata" (by rfl)
  exact h.trans (by rfl)

/-- Claim C3 counterexample: in `alpha > x | cata`, the interior
stage's redirection tokens are NOT parsed: `>` and `x` stay in the
spawned argv of stage 0 (they are passed to the command as ordinary
arguments), instead of being removed with the target discarded as
claimed. -/
theorem claim_C3_counterexample :
    run_pipeline envBin "alpha > x | cata" =
      ⟨[PEvent.spawned ["alpha", ">", "x"] "/bin/alpha",
        PEvent.spawned ["cata"] "/bin/cata",
        PEvent.waited ["alpha", ">", "x"] "/bin/alpha",
        PEvent.waited ["cata"] "/bin/cata"], .completed⟩ := by
  rfl

/-- Claim C3 (amended): in a pipeline of two or more stages, an
interior (non-last) stage's tokens are not redirection-parsed at all:
redirection operators and their targets remain in that stage's argv
and are passed to the spawned command; only the last stage's tokens go
through `parse_redirection`, whose argv is spawned and whose file
targets are opened. -/
theorem claim_C3 :
    (∀ (env : ShellEnv) (seg nextSeg : String) (rest : List String) (prev : Bool)
        (procs : List (List String × String)) (evs : List PEvent)
        (toks : List String) (kw : String) (t : List String) (p : String),
        shlex_split seg = .ok toks → toks = kw :: t → isBuiltin kw = false →
        find_executable env kw = some p →
        pipeline_go env (seg :: nextSeg :: rest) prev procs evs =
          pipeline_go env (nextSeg :: rest) true (procs ++ [(toks, p)])
            (evs ++ [PEvent.spawned toks p])) ∧
    (∀ (env : ShellEnv) (seg : String) (prev : Bool)
        (procs : List (List String × String)) (evs : List PEvent)
        (toks : List String) (kw : String) (t : List String) (p : String),
        shlex_split seg = .ok toks →
        (parse_redirection toks).new_args = kw :: t → isBuiltin kw = false →
        find_executable env kw = some p →
        pipeline_go env [seg] prev procs evs =
          ⟨evs ++ open_events (parse_redirection toks) ++
            [PEvent.spawned (parse_redirection toks).new_args p] ++
            (procs ++ [((parse_redirection toks).new_args, p)]).map
              (fun pr => PEvent.waited pr.1 pr.2), .completed⟩) := by
  constructor
  · intro env seg nextSeg rest prev procs evs toks kw t p hsp htoks hb hf
    have hargs : (stage_redir (nextSeg :: rest).isEmpty toks).new_args = kw :: t := htoks
    rw [pgo_spawn env seg (nextSeg :: rest) prev procs evs toks kw t p hsp hargs hb hf]
    simp only [stage_redir, List.isEmpty_cons, Bool.false_eq_true, if_false,
      open_events, List.append_nil]
  · intro env seg prev procs evs toks kw t p hsp hargs hb hf
    have hargs2 : (stage_redir ([] : List String).isEmpty toks).new_args = kw :: t := hargs
    rw [pgo_spawn env seg [] prev procs evs toks kw t p hsp hargs2 hb hf]
    rw [pgo_nil]
    simp only [stage_redir, List.isEmpty_nil, if_true, List.append_assoc]

/-- Claim C3 witness: `claim_C3` applied at the concrete interior
stage `alpha > x` of `alpha > x | cata`. -/
theorem claim_C3_witness :
    pipeline_go envBin ["alpha > x", "cata"] false [] [] =
      pipeline_go envBin ["cata"] true [(["alpha", ">", "x"], "/bin/alpha")]
        [PEvent.spawned ["alpha", ">", "x"] "/bin/alpha"] := by
  have h := claim_C3.1 envBin "alpha > x" "cata" [] false [] []
    ["alpha", ">", "x"] "alpha" [">", "x"] "/bin/alpha" (by rfl) rfl (by rfl) (by rfl)
  exact h

/-- Claim C1 counterexample: in `cata | nope`, stage 0 is spawned and
stage 1 fails to resolve; the orchestrator prints
`nope: command not found` with a plain `print` — to the shell's
stdout, not to the stage's error stream — and returns at once: the
remaining stages are aborted but the already-spawned `cata` process is
never waited (no `waited` event exists), contradicting the claimed
reaping guarantee. -/
theorem claim_C1_counterexample :
    run_pipeline envBin "cata | nope" =
      ⟨[PEvent.spawned ["cata"] "/bin/cata",
        PEvent.printOut "nope: command not found"], .aborted⟩ := by
  rfl

/-- Claim C1 (amended): when executable resolution fails for a stage,
the orchestrator prints `<name>: command not found` to its own stdout
(a plain `print`, not the stage's error stream) and returns
immediately: every remaining unstarted stage is aborted, and —
contrary to the claimed reaping — no already-spawned external process
of the pipeline is waited: whenever a pipeline does not reach its
final wait block, its event trace contains no wait at all. -/
theorem claim_C1 :
    (∀ (env : ShellEnv) (seg : String) (rest : List String) (prev : Bool)
        (procs : List (List String × String)) (evs : List PEvent)
        (toks : List String) (kw : String) (t : List String),
        shlex_split seg = .ok toks →
        (stage_redir rest.isEmpty toks).new_args = kw :: t →
        isBuiltin kw = false → find_executable env kw = none →
        pipeline_go env (seg :: rest) prev procs evs =
          ⟨evs ++ open_events (stage_redir rest.isEmpty toks) ++
            [PEvent.printOut (kw ++ ": command not found")], .aborted⟩) ∧
    (∀ (env : ShellEnv) (line : String),
        (run_pipeline env line).outcome ≠ POutcome.completed →
        ∀ e ∈ (run_pipeline env line).events, isWaitedEv e = false) := by
  refine ⟨pgo_notfound, ?_⟩
  intro env line h
  exact pipeline_go_no_new_waited env (split_segments line) false [] []
    (fun e he => absurd he (List.not_mem_nil e)) h

/-- Claim C1 witness: `claim_C1` applied with a spawned process
pending: the not-found stage aborts without producing any wait. -/
theorem claim_C1_witness :
    pipeline_go envBin ["nope"] true [(["cata"], "/bin/cata")]
        [PEvent.spawned ["cata"] "/bin/cata"] =
      ⟨[PEvent.spawned ["cata"] "/bin/cata",
        PEvent.printOut "nope: command not found"], .aborted⟩ := by
  have h := claim_C1.1 envBin "nope" [] true [(["cata"], "/bin/cata")]
    [PEvent.spawned ["cata"] "/bin/cata"] ["nope"] "nope" []
    (by rfl) (by rfl) (by rfl) (by rfl)
  exact h.trans (by rfl)

end BuildOwnShell
